import Mathlib

/-!
# Shallow embedding of `@basementuniverse/image-font`

This file embeds the `ImageFont` class (measurement, layout and drawing of
bitmap-font text, plus the recoloring cache) from the repository's TypeScript
source into Lean, and proves properties of the embedded definitions.

Modelling conventions:
* JavaScript numbers are modelled as rationals (`ℚ`); the one place where an
  infinity arises (`Math.max()` of no arguments is `-Infinity`) is modelled by
  the extended type `JSNum`.
* A JS `Record<string, T>` keyed by characters is modelled as a function
  `Char → Option T`; the `Map` used for the color cache is modelled as an
  association list in insertion order (a JS `Map` iterates in insertion
  order), with the key built by string concatenation exactly as in
  `getCacheKey`.
* Optional fields / `undefined` are modelled by `Option`; `a ?? b` becomes
  `Option.getD` / `Option.orElse`, and JS truthiness tests are spelled out
  (`options?.monospace` is truthy iff the option is `some true`;
  `options?.color` is truthy iff it is `some c` with `c ≠ ""`).
* `text[text.length - 1]` on the empty string yields JS `undefined`; the
  measurement functions therefore take an `Option Char` where the source may
  pass an undefined character, and every property lookup on it yields `none`.
* Pixel compositing (`createColoredTexture`'s canvas work) is outside the
  core per the source's separation of concerns: the recoloring function is a
  parameter `recolor`, and drawing emits a list of `DrawCall` records (the
  arguments of each `context.drawImage` call) instead of painting.
-/

/-- JS number extended with the infinities produced by `Math.max()` on an
empty argument list and by subtracting `-Infinity`. -/
inductive JSNum where
  | negInf : JSNum
  | posInf : JSNum
  | num : ℚ → JSNum
deriving DecidableEq

/-- `Math.max` on two extended numbers. -/
def jmax : JSNum → JSNum → JSNum
  | JSNum.negInf, b => b
  | a, JSNum.negInf => a
  | JSNum.posInf, _ => JSNum.posInf
  | _, JSNum.posInf => JSNum.posInf
  | JSNum.num a, JSNum.num b => JSNum.num (max a b)

/-- Halving (`x / 2`) on extended numbers. -/
def jhalf : JSNum → JSNum
  | JSNum.negInf => JSNum.negInf
  | JSNum.posInf => JSNum.posInf
  | JSNum.num q => JSNum.num (q / 2)

/-- `q - h` for a finite `q` and an extended `h`. -/
def jsub (q : ℚ) : JSNum → JSNum
  | JSNum.negInf => JSNum.posInf
  | JSNum.posInf => JSNum.negInf
  | JSNum.num r => JSNum.num (q - r)

/-- `h - q` for an extended `h` and a finite `q`. -/
def jsubF : JSNum → ℚ → JSNum
  | JSNum.negInf, _ => JSNum.negInf
  | JSNum.posInf, _ => JSNum.posInf
  | JSNum.num r, q => JSNum.num (r - q)

/-- A 2D pixel vector (`vec2` from `@basementuniverse/vec`). -/
structure Vec2 where
  x : ℚ
  y : ℚ
deriving DecidableEq

/-- `vec2.add`: componentwise addition. -/
def vecAdd (a b : Vec2) : Vec2 := ⟨a.x + b.x, a.y + b.y⟩

/-- `vec2()`: the zero vector. -/
def vecZero : Vec2 := ⟨0, 0⟩

/-- A texture-atlas tile: an image with intrinsic pixel dimensions.  The
`tag` field stands in for the (otherwise irrelevant) pixel content so that
distinct recolored tiles can be told apart. -/
structure Texture where
  width : ℚ
  height : ℚ
  tag : ℕ := 0
deriving DecidableEq

/-- `ImageFontCharacterConfig`: per-character geometry. -/
structure ImageFontCharacterConfig where
  offset : Option Vec2 := none
  width : Option ℚ := none
  height : Option ℚ := none

/-- `ImageFontConfig`: the font-wide configuration. -/
structure ImageFontConfig where
  offset : Option Vec2 := none
  scale : Option ℚ := none
  defaultCharacterConfig : Option ImageFontCharacterConfig := none
  characters : Char → Option ImageFontCharacterConfig

/-- Horizontal alignment option. -/
inductive Align where
  | left : Align
  | center : Align
  | right : Align
deriving DecidableEq

/-- Vertical alignment option. -/
inductive BaseLine where
  | top : BaseLine
  | middle : BaseLine
  | bottom : BaseLine
deriving DecidableEq

/-- `ColoringMode`. -/
inductive ColoringMode where
  | multiply : ColoringMode
  | overlay : ColoringMode
  | hue : ColoringMode
  | custom : ColoringMode
deriving DecidableEq

/-- `ImageFontRenderingOptions`.  `coloringFunction` is modelled as an opaque
handle (`Option ℕ`): the source only tests it for presence and forwards it to
the recoloring collaborator. -/
structure ImageFontRenderingOptions where
  scale : Option ℚ := none
  monospace : Option Bool := none
  kerning : Option ℚ := none
  align : Option Align := none
  baseLine : Option BaseLine := none
  color : Option String := none
  coloringMode : Option ColoringMode := none
  coloringFunction : Option ℕ := none

/-- The state of an `ImageFont` instance apart from its color cache: the
texture atlas map and the (merged) configuration. -/
structure ImageFont where
  textures : Char → Option Texture
  config : ImageFontConfig

/-- The `ImageFont` constructor: spread-merge of the built-in
`DEFAULT_CONFIG` with the supplied configuration (later spread wins when the
property is supplied). -/
def makeImageFont (textures : Char → Option Texture)
    (config : ImageFontConfig) : ImageFont :=
  { textures := textures
    config :=
      { offset := some (config.offset.getD vecZero)
        scale := some (config.scale.getD 1)
        defaultCharacterConfig := some
          { offset := some
              ((config.defaultCharacterConfig.bind
                ImageFontCharacterConfig.offset).getD vecZero)
            width := config.defaultCharacterConfig.bind
              ImageFontCharacterConfig.width
            height := config.defaultCharacterConfig.bind
              ImageFontCharacterConfig.height }
        characters := config.characters } }

/-- `const actualScale = (options?.scale ?? 1) * (this.config.scale ?? 1)`. -/
def actualScale (F : ImageFont) (options : ImageFontRenderingOptions) : ℚ :=
  options.scale.getD 1 * F.config.scale.getD 1

/-- `measureCharacterWidth`.  The character is an `Option Char` because
`measureText` may pass the result of an out-of-range string index (JS
`undefined`), on which every lookup yields nothing. -/
def measureCharacterWidth (F : ImageFont) (character : Option Char)
    (options : ImageFontRenderingOptions) : ℚ :=
  let characterConfig := character.bind F.config.characters
  let s := actualScale F options
  let texture := character.bind F.textures
  let width : ℚ :=
    if options.monospace = some true then
      match options.kerning with
      | some k => k
      | none =>
        ((F.config.defaultCharacterConfig.bind
            ImageFontCharacterConfig.width).orElse
          (fun _ => texture.map Texture.width)).getD 0
    else
      (((characterConfig.bind ImageFontCharacterConfig.width).orElse
          (fun _ => F.config.defaultCharacterConfig.bind
            ImageFontCharacterConfig.width)).orElse
        (fun _ => texture.map Texture.width)).getD 0 * options.kerning.getD 1
  width * s

/-- `measureCharacterHeight`. -/
def measureCharacterHeight (F : ImageFont) (character : Char)
    (options : ImageFontRenderingOptions) : ℚ :=
  let characterConfig := F.config.characters character
  ((characterConfig.bind ImageFontCharacterConfig.height).orElse
    (fun _ => F.config.defaultCharacterConfig.bind
      ImageFontCharacterConfig.height)).getD 0 * actualScale F options

/-- `measureText`: width is the sum of character widths with the last
character's width taken with only `scale` carried over, height is
`Math.max(...heights)` (which is `-Infinity` for the empty string). -/
def measureText (F : ImageFont) (text : List Char)
    (options : ImageFontRenderingOptions) : ℚ × JSNum :=
  let lastCharacterWidth :=
    measureCharacterWidth F (text.get? (text.length - 1))
      { scale := options.scale }
  let width :=
    (text.take (text.length - 1)).foldl
      (fun w character => w + measureCharacterWidth F (some character) options)
      0 + lastCharacterWidth
  let height :=
    (text.map
      (fun character =>
        JSNum.num (measureCharacterHeight F character options))).foldl
      jmax JSNum.negInf
  (width, height)

/-- `MAX_COLOR_CACHE_SIZE`. -/
def MAX_COLOR_CACHE_SIZE : ℕ := 1000

/-- The color cache: a JS `Map` from cache-key strings to recolored tiles,
kept in insertion order. -/
def ColorCache : Type := List (String × Texture)

/-- `getCacheKey`: the string `character + ":" + color + ":" + mode`. -/
def modeName : ColoringMode → String
  | ColoringMode.multiply => "multiply"
  | ColoringMode.overlay => "overlay"
  | ColoringMode.hue => "hue"
  | ColoringMode.custom => "custom"

/-- The template-literal cache key from `getCacheKey`. -/
def getCacheKey (character : Char) (color : String)
    (mode : ColoringMode) : String :=
  String.mk [character] ++ ":" ++ color ++ ":" ++ modeName mode

/-- `getColoringMode`: the requested mode, defaulting to `multiply`, and
falling back from `custom` to `multiply` when no coloring function is
supplied. -/
def getColoringMode (options : ImageFontRenderingOptions) : ColoringMode :=
  let mode := options.coloringMode.getD ColoringMode.multiply
  if mode = ColoringMode.custom ∧ options.coloringFunction = none then
    ColoringMode.multiply
  else mode

/-- JS `Map.prototype.set` on the association-list model: replace in place
when the key is present, append otherwise. -/
def mapSet (m : List (String × Texture)) (k : String)
    (v : Texture) : List (String × Texture) :=
  if (List.lookup k m).isSome then
    m.map (fun p => if p.1 = k then (k, v) else p)
  else m ++ [(k, v)]

/-- Deleting the oldest entry: `map.delete(map.keys().next().value)` — the
first-inserted key, when the map is non-empty. -/
def mapDeleteOldest (m : List (String × Texture)) :
    List (String × Texture) :=
  match m.head? with
  | none => m
  | some e => m.filter (fun p => p.1 != e.1)

/-- The recoloring collaborator (`createColoredTexture`): produces the
recolored tile from the plain tile, the color, the effective mode and the
optional custom coloring function.  Pixel compositing is external to the
core, so this is a parameter of the drawing semantics. -/
def RecolorFn : Type := Texture → String → ColoringMode → Option ℕ → Texture

/-- The coloring block of `drawText`: given the plain tile of `character`,
return the tile actually drawn together with the updated cache and the
number of `createColoredTexture` invocations so far.  Mirrors the source:
only a truthy `options.color` triggers coloring; a cache hit reuses the
cached tile; a miss recolors, evicts the oldest entry when the cache is at
capacity, and inserts the new entry. -/
def resolveColoredTexture (recolor : RecolorFn) (texture : Texture)
    (character : Char) (options : ImageFontRenderingOptions)
    (cache : List (String × Texture)) (count : ℕ) :
    Texture × List (String × Texture) × ℕ :=
  match options.color with
  | none => (texture, cache, count)
  | some color =>
    if color = "" then (texture, cache, count)
    else
      let coloringMode := getColoringMode options
      let cacheKey := getCacheKey character color coloringMode
      match List.lookup cacheKey cache with
      | some t => (t, cache, count)
      | none =>
        let finalTexture :=
          recolor texture color coloringMode options.coloringFunction
        let cache1 :=
          if MAX_COLOR_CACHE_SIZE ≤ cache.length then mapDeleteOldest cache
          else cache
        (finalTexture, mapSet cache1 cacheKey finalTexture, count + 1)

/-- One recorded `context.drawImage(texture, x, y, w, h)` call. -/
structure DrawCall where
  texture : Texture
  x : ℚ
  y : JSNum
  w : ℚ
  h : ℚ
deriving DecidableEq

/-- The mutable state threaded through the character loop of `drawText`:
the cursor, the color cache, the recoloring call counter, and the draw
calls emitted so far (in order). -/
structure DrawState where
  currentX : ℚ
  colorCache : List (String × Texture)
  recolorCount : ℕ
  calls : List DrawCall
deriving DecidableEq

/-- The horizontal origin of `drawText`: `x` adjusted by the `align`
option. -/
def originX (F : ImageFont) (text : List Char) (x : ℚ)
    (options : ImageFontRenderingOptions) : ℚ :=
  match options.align with
  | some Align.center => x - (measureText F text options).1 / 2
  | some Align.right => x - (measureText F text options).1
  | _ => x

/-- The vertical origin of `drawText` (`actualY`): `y` adjusted by the
`baseLine` option. -/
def originY (F : ImageFont) (text : List Char) (y : ℚ)
    (options : ImageFontRenderingOptions) : JSNum :=
  match options.baseLine with
  | some BaseLine.middle => jsub y (jhalf (measureText F text options).2)
  | some BaseLine.bottom => jsub y (measureText F text options).2
  | _ => JSNum.num y

/-- One iteration of the `for (const character of text)` loop of
`drawText`. -/
def drawCharStep (F : ImageFont) (recolor : RecolorFn)
    (options : ImageFontRenderingOptions) (actualY : JSNum)
    (st : DrawState) (character : Char) : DrawState :=
  let characterWidth := measureCharacterWidth F (some character) options
  match F.textures character with
  | none => { st with currentX := st.currentX + characterWidth }
  | some texture =>
    let s := actualScale F options
    let characterConfig := F.config.characters character
    let offset :=
      vecAdd (F.config.offset.getD vecZero)
        (((characterConfig.bind ImageFontCharacterConfig.offset).orElse
          (fun _ => F.config.defaultCharacterConfig.bind
            ImageFontCharacterConfig.offset)).getD vecZero)
    let r := resolveColoredTexture recolor texture character options
      st.colorCache st.recolorCount
    { currentX := st.currentX + characterWidth
      colorCache := r.2.1
      recolorCount := r.2.2
      calls := st.calls ++
        [{ texture := r.1
           x := st.currentX - offset.x * s
           y := jsubF actualY (offset.y * s)
           w := r.1.width * s
           h := r.1.height * s }] }

/-- `drawText`, as a function from the anchor point, text and options (plus
the incoming cache state) to the final loop state: emitted draw calls,
final cursor, final cache and recoloring count. -/
def drawTextRun (F : ImageFont) (recolor : RecolorFn) (text : List Char)
    (x y : ℚ) (options : ImageFontRenderingOptions)
    (cache0 : List (String × Texture)) (count0 : ℕ) : DrawState :=
  text.foldl (drawCharStep F recolor options (originY F text y options))
    { currentX := originX F text x options
      colorCache := cache0
      recolorCount := count0
      calls := [] }

/-- The full per-instance state of an `ImageFont`: atlas, configuration and
the color cache (the instance's only mutable field). -/
structure ImageFontState where
  textures : Char → Option Texture
  config : ImageFontConfig
  colorCache : List (String × Texture)

/-- `measureText` as a method: it reads the instance state and returns it
unchanged (the source body contains no assignment to `this`). -/
def measureTextM (σ : ImageFontState) (text : List Char)
    (options : ImageFontRenderingOptions) : (ℚ × JSNum) × ImageFontState :=
  (measureText ⟨σ.textures, σ.config⟩ text options, σ)

/-- `drawText` as a method: returns the emitted draw calls and the updated
instance state (only the color cache can change). -/
def drawTextM (σ : ImageFontState) (recolor : RecolorFn) (text : List Char)
    (x y : ℚ) (options : ImageFontRenderingOptions) :
    List DrawCall × ImageFontState :=
  let st := drawTextRun ⟨σ.textures, σ.config⟩ recolor text x y options
    σ.colorCache 0
  (st.calls, { σ with colorCache := st.colorCache })

/-!
## Specification-side definitions

These definitions are written from the specification's words (not from the
source) so that the source-derived functions above can be compared against
them.
-/

/-- Spec §4.1: effective scale = `(options.scale ?? 1) * (fontConfig.scale ?? 1)`. -/
def specEffectiveScale (F : ImageFont)
    (options : ImageFontRenderingOptions) : ℚ :=
  options.scale.getD 1 * F.config.scale.getD 1

/-- Spec §4.1, monospace branch: base width is `options.kerning` if defined,
else the default character width, else the tile's intrinsic width, else 0,
multiplied by the effective scale; the per-character width never enters. -/
def specMonospaceWidth (F : ImageFont) (character : Char)
    (options : ImageFontRenderingOptions) : ℚ :=
  ((options.kerning.orElse
      (fun _ => F.config.defaultCharacterConfig.bind
        ImageFontCharacterConfig.width)).orElse
    (fun _ => (F.textures character).map Texture.width)).getD 0
    * specEffectiveScale F options

/-- Spec §4.1, proportional branch: base width is the per-character width,
else the default width, else the tile's intrinsic width, else 0, multiplied
by `options.kerning ?? 1` and by the effective scale. -/
def specProportionalWidth (F : ImageFont) (character : Char)
    (options : ImageFontRenderingOptions) : ℚ :=
  ((((F.config.characters character).bind
      ImageFontCharacterConfig.width).orElse
    (fun _ => F.config.defaultCharacterConfig.bind
      ImageFontCharacterConfig.width)).orElse
    (fun _ => (F.textures character).map Texture.width)).getD 0
    * options.kerning.getD 1 * specEffectiveScale F options

/-- Spec §4.1: height is the per-character height, else the default height,
else 0 — with no tile-intrinsic fallback — multiplied by the effective
scale. -/
def specResolveHeight (F : ImageFont) (character : Char)
    (options : ImageFontRenderingOptions) : ℚ :=
  (((F.config.characters character).bind
      ImageFontCharacterConfig.height).orElse
    (fun _ => F.config.defaultCharacterConfig.bind
      ImageFontCharacterConfig.height)).getD 0
    * specEffectiveScale F options

/-!
## Concrete instances

Small concrete fonts, caches and states used to exhibit the theorems on
explicit inputs.
-/

/-- A character configuration with a 10px proportional width and a 12px
height. -/
def exCfg : ImageFontCharacterConfig := { width := some 10, height := some 12 }

/-- A font whose characters `a`, `b`, `c` each resolve to a 10px
proportional width, with an empty atlas. -/
def exFont : ImageFont :=
  { textures := fun _ => none
    config :=
      { characters := fun c =>
          if c = 'a' ∨ c = 'b' ∨ c = 'c' then some exCfg else none } }

/-- A font with an atlas tile for `a` (8×9 pixels) and per-character widths,
used for the drawing claims. -/
def exFontAtlas : ImageFont :=
  { textures := fun c => if c = 'a' then some ⟨8, 9, 0⟩ else none
    config :=
      { characters := fun c =>
          if c = 'a' ∨ c = 'b' then some exCfg else none } }

/-- A font whose default character configuration has a width, so that the
undefined-character fallback in `measureText` is visible. -/
def exFontDefault : ImageFont :=
  { textures := fun _ => none
    config :=
      { defaultCharacterConfig := some { width := some 10 }
        characters := fun _ => none } }

/-- A recoloring function for the cache examples: bump the tile's tag. -/
def exRecolor : RecolorFn := fun t _ _ _ => { t with tag := t.tag + 1 }

/-- The oldest (first-inserted) entry of the full example cache below. -/
def bigHead : String × Texture := (String.mk (List.replicate 1 'x'), ⟨1, 1, 0⟩)

/-- The remaining `MAX_COLOR_CACHE_SIZE - 1` entries of the full example
cache, with pairwise-distinct keys of distinct lengths. -/
def bigTail : List (String × Texture) :=
  (List.range (MAX_COLOR_CACHE_SIZE - 1)).map
    (fun n => (String.mk (List.replicate (n + 2) 'x'), ⟨1, 1, n + 1⟩))

/-- A color cache filled to exactly `MAX_COLOR_CACHE_SIZE` distinct keys. -/
def bigCache : List (String × Texture) := bigHead :: bigTail

/-!
## Helper lemmas
-/

theorem foldl_add_eq_sum {α : Type} (f : α → ℚ) (l : List α) :
    ∀ a : ℚ, l.foldl (fun w c => w + f c) a = a + (l.map f).sum := by
  induction l with
  | nil => intro a; simp
  | cons c t ih =>
    intro a
    simp only [List.foldl_cons, List.map_cons, List.sum_cons, ih]
    ring

theorem jmax_foldl_num (l : List ℚ) :
    ∀ a : ℚ, (l.map JSNum.num).foldl jmax (JSNum.num a) =
      JSNum.num (l.foldl max a) := by
  induction l with
  | nil => intro a; rfl
  | cons q t ih => intro a; simpa [jmax] using ih (max a q)

theorem le_foldl_max (l : List ℚ) : ∀ a : ℚ, a ≤ l.foldl max a := by
  induction l with
  | nil => intro a; simp
  | cons q t ih =>
    intro a
    exact le_trans (le_max_left a q) (ih (max a q))

theorem mem_le_foldl_max (l : List ℚ) : ∀ a b : ℚ, b ∈ l → b ≤ l.foldl max a := by
  induction l with
  | nil => simp
  | cons q t ih =>
    intro a b hb
    rcases List.mem_cons.mp hb with h | h
    · subst h
      exact le_trans (le_max_right a b) (le_foldl_max t _)
    · exact ih _ _ h

theorem foldl_max_attained (l : List ℚ) :
    ∀ a : ℚ, l.foldl max a = a ∨ l.foldl max a ∈ l := by
  induction l with
  | nil => intro a; left; rfl
  | cons q t ih =>
    intro a
    rcases ih (max a q) with h | h
    · simp only [List.foldl_cons, h]
      rcases le_total a q with hle | hle
      · right; simp [max_eq_right hle]
      · left; simp [max_eq_left hle]
    · right
      simp only [List.foldl_cons]
      exact List.mem_cons_of_mem _ h

/-- For a non-empty string, `measureText`'s height is a finite number that
is the maximum of the per-character heights. -/
theorem measureText_height_max (F : ImageFont)
    (options : ImageFontRenderingOptions) (text : List Char) (h : text ≠ []) :
    ∃ q : ℚ, (measureText F text options).2 = JSNum.num q ∧
      (∀ character ∈ text, measureCharacterHeight F character options ≤ q) ∧
      ∃ character ∈ text, measureCharacterHeight F character options = q := by
  match text with
  | [] => exact absurd rfl h
  | c :: cs =>
    refine ⟨(cs.map fun ch => measureCharacterHeight F ch options).foldl max
      (measureCharacterHeight F c options), ?_, ?_, ?_⟩
    · show ((c :: cs).map fun ch =>
        JSNum.num (measureCharacterHeight F ch options)).foldl jmax
          JSNum.negInf = _
      have hmm : ((c :: cs).map fun ch =>
          JSNum.num (measureCharacterHeight F ch options)) =
          ((c :: cs).map fun ch => measureCharacterHeight F ch options).map
            JSNum.num := by
        simp [List.map_map, Function.comp]
      rw [hmm]
      simp only [List.map_cons, List.foldl_cons]
      show ((cs.map fun ch => measureCharacterHeight F ch options).map
        JSNum.num).foldl jmax
          (JSNum.num (measureCharacterHeight F c options)) = _
      exact jmax_foldl_num _ _
    · intro ch hch
      rcases List.mem_cons.mp hch with hc | hc
      · subst hc; exact le_foldl_max _ _
      · exact mem_le_foldl_max _ _ _ (List.mem_map_of_mem _ hc)
    · rcases foldl_max_attained
        (cs.map fun ch => measureCharacterHeight F ch options)
        (measureCharacterHeight F c options) with ha | ha
      · exact ⟨c, List.mem_cons_self c cs, ha.symm⟩
      · rcases List.mem_map.mp ha with ⟨ch, hch, hval⟩
        exact ⟨ch, List.mem_cons_of_mem _ hch, hval⟩

/-!
## Claim theorems
-/

/-- C1: for every non-empty text and every rendering options value, the
measured width is the sum of `measureCharacterWidth` over all characters
except the last, computed with the full original options, plus the last
character's width computed with kerning and monospace stripped and only the
`scale` option carried through. -/
theorem C1_measureText_width (F : ImageFont) (text : List Char)
    (options : ImageFontRenderingOptions) (h : text ≠ []) :
    (measureText F text options).1 =
      (text.dropLast.map
        (fun character => measureCharacterWidth F (some character) options)).sum
      + measureCharacterWidth F (some (text.getLast h))
          { scale := options.scale } := by
  show (text.take (text.length - 1)).foldl
      (fun w character => w + measureCharacterWidth F (some character) options)
      0 + measureCharacterWidth F (text.get? (text.length - 1))
        { scale := options.scale } = _
  rw [← List.dropLast_eq_take, foldl_add_eq_sum, zero_add,
    ← List.getLast?_eq_get?, List.getLast?_eq_getLast _ h]

/-- Witness for C1 at a concrete font: three characters each resolving to a
10px proportional width with `kerning = 2` measure 50px wide. -/
theorem C1_measureText_width_witness :
    (['a', 'b', 'c'] : List Char) ≠ [] ∧
    (measureText exFont ['a', 'b', 'c'] { kerning := some 2 }).1 =
      ((['a', 'b', 'c'] : List Char).dropLast.map
        (fun character =>
          measureCharacterWidth exFont (some character) { kerning := some 2 })).sum
      + measureCharacterWidth exFont
          (some ((['a', 'b', 'c'] : List Char).getLast (by decide)))
          { scale := none } ∧
    (measureText exFont ['a', 'b', 'c'] { kerning := some 2 }).1 = 50 :=
  ⟨by decide,
   C1_measureText_width exFont ['a', 'b', 'c'] { kerning := some 2 } (by decide),
   by norm_num +decide [measureText, measureCharacterWidth, actualScale,
     exFont, exCfg]⟩

/-- C2: when `options.monospace` is true, `measureCharacterWidth` is
`(kerning ?? default width ?? tile width ?? 0) × effective scale`, and the
per-character configured width is never consulted (replacing the whole
per-character table changes nothing). -/
theorem C2_monospace_width (F : ImageFont) (character : Char)
    (options : ImageFontRenderingOptions)
    (chars2 : Char → Option ImageFontCharacterConfig)
    (h : options.monospace = some true) :
    measureCharacterWidth F (some character) options =
      specMonospaceWidth F character options ∧
    measureCharacterWidth
        ⟨F.textures, { F.config with characters := chars2 }⟩
        (some character) options =
      measureCharacterWidth F (some character) options := by
  constructor
  · simp only [measureCharacterWidth, specMonospaceWidth, specEffectiveScale,
      actualScale, h, if_pos]
    cases hk : options.kerning with
    | none => simp [Option.orElse]
    | some k => simp [Option.orElse]
  · simp only [measureCharacterWidth, h, if_pos, actualScale]

/-- Witness for C2: a character with an explicit 10px proportional width
still measures 4px when `monospace` with `kerning = 4` is requested. -/
theorem C2_monospace_width_witness :
    ({ monospace := some true, kerning := some 4 } :
        ImageFontRenderingOptions).monospace = some true ∧
    measureCharacterWidth exFont (some 'a')
        { monospace := some true, kerning := some 4 } =
      specMonospaceWidth exFont 'a'
        { monospace := some true, kerning := some 4 } ∧
    measureCharacterWidth exFont (some 'a')
        { monospace := some true, kerning := some 4 } = 4 :=
  ⟨rfl,
   (C2_monospace_width exFont 'a' { monospace := some true, kerning := some 4 }
     (fun _ => none) rfl).1,
   by norm_num +decide [measureCharacterWidth, actualScale, exFont, exCfg]⟩

/-- C3: when `options.monospace` is not true, `measureCharacterWidth` is
`(per-character width ?? default width ?? tile width ?? 0) ×
(kerning ?? 1) × effective scale`; a character absent from the
per-character config, the default config and the atlas resolves to 0. -/
theorem C3_proportional_width (F : ImageFont) (character : Char)
    (options : ImageFontRenderingOptions)
    (h : options.monospace ≠ some true) :
    measureCharacterWidth F (some character) options =
      specProportionalWidth F character options ∧
    (F.config.characters character = none →
      F.config.defaultCharacterConfig.bind ImageFontCharacterConfig.width =
        none →
      F.textures character = none →
      measureCharacterWidth F (some character) options = 0) := by
  constructor
  · simp only [measureCharacterWidth, specProportionalWidth,
      specEffectiveScale, actualScale, if_neg h, Option.some_bind]
  · intro h1 h2 h3
    simp [measureCharacterWidth, if_neg h, h1, h2, h3, Option.orElse]

/-- Witness for C3: the proportional width of `a` in the example font, and
the zero width of a fully-unconfigured character. -/
theorem C3_proportional_width_witness :
    (({ kerning := some 2 } : ImageFontRenderingOptions).monospace ≠
      some true) ∧
    measureCharacterWidth exFont (some 'a') { kerning := some 2 } =
      specProportionalWidth exFont 'a' { kerning := some 2 } ∧
    measureCharacterWidth exFont (some 'z') { kerning := some 2 } = 0 :=
  ⟨by decide,
   (C3_proportional_width exFont 'a' { kerning := some 2 } (by decide)).1,
   (C3_proportional_width exFont 'z' { kerning := some 2 } (by decide)).2
     rfl rfl rfl⟩

/-- C10: for a single-character string, the measured width is the
character's proportionally resolved base width times
`(options.scale ?? 1) * (fontConfig.scale ?? 1)`, for all values of the
kerning and monospace options; hence it is invariant under any change of
options that keeps `scale` fixed. -/
theorem C10_single_character_width (F : ImageFont) (character : Char)
    (options options2 : ImageFontRenderingOptions)
    (h : options2.scale = options.scale) :
    (measureText F [character] options).1 =
      ((((F.config.characters character).bind
          ImageFontCharacterConfig.width).orElse
        (fun _ => F.config.defaultCharacterConfig.bind
          ImageFontCharacterConfig.width)).orElse
        (fun _ => (F.textures character).map Texture.width)).getD 0 *
      (options.scale.getD 1 * F.config.scale.getD 1) ∧
    (measureText F [character] options2).1 =
      (measureText F [character] options).1 := by
  have key : ∀ o : ImageFontRenderingOptions,
      (measureText F [character] o).1 =
        ((((F.config.characters character).bind
            ImageFontCharacterConfig.width).orElse
          (fun _ => F.config.defaultCharacterConfig.bind
            ImageFontCharacterConfig.width)).orElse
          (fun _ => (F.textures character).map Texture.width)).getD 0 *
        (o.scale.getD 1 * F.config.scale.getD 1) := by
    intro o
    show (([character].take 0).foldl
        (fun w c => w + measureCharacterWidth F (some c) o) 0 +
      measureCharacterWidth F ([character].get? 0) { scale := o.scale }) = _
    simp [measureCharacterWidth, actualScale]
  exact ⟨key options, by rw [key options, key options2, h]⟩

/-- Witness for C10: with `kerning = 2` and `monospace = true`, the width of
the single-character string `a` is still its plain 10px proportional
width. -/
theorem C10_single_character_width_witness :
    ({ monospace := some true, kerning := some 2 } :
        ImageFontRenderingOptions).scale =
      ({} : ImageFontRenderingOptions).scale ∧
    (measureText exFont ['a']
        { monospace := some true, kerning := some 2 }).1 =
      (measureText exFont ['a'] {}).1 ∧
    (measureText exFont ['a'] {}).1 = 10 :=
  ⟨rfl,
   (C10_single_character_width exFont 'a' {}
     { monospace := some true, kerning := some 2 } rfl).2,
   by norm_num +decide [measureText, measureCharacterWidth, actualScale,
     exFont, exCfg]⟩

/-- C4 counterexample: on a font whose default character configuration
carries a width, measuring the empty string does not return a zero-size
box. -/
theorem C4_empty_string_counterexample :
    ¬ measureText exFontDefault [] {} = (0, JSNum.num 0) := by
  intro heq
  have h1 : (measureText exFontDefault [] {}).1 = 0 := by rw [heq]
  norm_num +decide [measureText, measureCharacterWidth, actualScale,
    exFontDefault] at h1

/-- C4 amended: `measureText` on the empty string is total (does not throw)
but returns width `(defaultCharacterConfig.width ?? 0) × (options.scale ?? 1)
× (config.scale ?? 1)` — the out-of-range last-character index is JS
`undefined`, whose width lookup falls through to the default width — and
height `-Infinity` (`Math.max` of no arguments), not a zero-size box. -/
theorem C4_empty_string_measure (F : ImageFont)
    (options : ImageFontRenderingOptions) :
    measureText F [] options =
      ((F.config.defaultCharacterConfig.bind
          ImageFontCharacterConfig.width).getD 0 *
        (options.scale.getD 1 * F.config.scale.getD 1),
       JSNum.negInf) := by
  show ((([] : List Char).take 0).foldl _ 0 +
    measureCharacterWidth F (([] : List Char).get? 0)
      { scale := options.scale }, _) = _
  simp only [List.take_nil, List.foldl_nil, List.get?, List.map_nil,
    zero_add, measureCharacterWidth, actualScale, Option.none_bind,
    Option.map_none']
  cases hd : F.config.defaultCharacterConfig.bind
      ImageFontCharacterConfig.width with
  | none => simp [Option.orElse]
  | some w => simp [Option.orElse]

/-- C5: `measureCharacterHeight` follows the spec's height chain (with no
tile-intrinsic fallback: the atlas is never consulted), and for a non-empty
string the measured height is the maximum, not the sum, of the character
heights. -/
theorem C5_height_resolution (F : ImageFont)
    (options : ImageFontRenderingOptions) :
    (∀ character : Char,
      measureCharacterHeight F character options =
        specResolveHeight F character options ∧
      ∀ textures2 : Char → Option Texture,
        measureCharacterHeight ⟨textures2, F.config⟩ character options =
          measureCharacterHeight F character options) ∧
    ∀ text : List Char, text ≠ [] →
      ∃ q : ℚ, (measureText F text options).2 = JSNum.num q ∧
        (∀ character ∈ text, measureCharacterHeight F character options ≤ q) ∧
        ∃ character ∈ text, measureCharacterHeight F character options = q := by
  refine ⟨fun character => ⟨rfl, fun textures2 => rfl⟩, ?_⟩
  exact fun text h => measureText_height_max F options text h

/-- Witness for C5: the example font measures `a b c` (heights 12 each) as
12 high — the maximum, not 36. -/
theorem C5_height_resolution_witness :
    measureCharacterHeight exFont 'a' {} = specResolveHeight exFont 'a' {} ∧
    ((['a', 'b', 'c'] : List Char) ≠ [] ∧
      ∃ q : ℚ, (measureText exFont ['a', 'b', 'c'] {}).2 = JSNum.num q ∧
        (∀ character ∈ (['a', 'b', 'c'] : List Char),
          measureCharacterHeight exFont character {} ≤ q) ∧
        ∃ character ∈ (['a', 'b', 'c'] : List Char),
          measureCharacterHeight exFont character {} = q) ∧
    (measureText exFont ['a', 'b', 'c'] {}).2 = JSNum.num 12 :=
  ⟨((C5_height_resolution exFont {}).1 'a').1,
   ⟨by decide,
    (C5_height_resolution exFont {}).2 ['a', 'b', 'c'] (by decide)⟩,
   by norm_num +decide [measureText, measureCharacterHeight, actualScale,
     exFont, exCfg, jmax]⟩

/-- Helper: one loop step appends one call when the tile is present and
none when it is absent. -/
theorem drawCharStep_calls_length (F : ImageFont) (recolor : RecolorFn)
    (options : ImageFontRenderingOptions) (actualY : JSNum)
    (st : DrawState) (c : Char) :
    ((drawCharStep F recolor options actualY st c).calls).length =
      st.calls.length + ((F.textures c).isSome).toNat := by
  cases htex : F.textures c <;> simp [drawCharStep, htex]

/-- Helper: one loop step always advances the cursor by the character's
resolved width. -/
theorem drawCharStep_currentX (F : ImageFont) (recolor : RecolorFn)
    (options : ImageFontRenderingOptions) (actualY : JSNum)
    (st : DrawState) (c : Char) :
    (drawCharStep F recolor options actualY st c).currentX =
      st.currentX + measureCharacterWidth F (some c) options := by
  cases htex : F.textures c <;> simp [drawCharStep, htex]

/-- Helper: the number of draw calls accumulated by the character loop is
the number of characters whose tile is present in the atlas. -/
theorem drawFoldl_calls_length (F : ImageFont) (recolor : RecolorFn)
    (options : ImageFontRenderingOptions) (actualY : JSNum) :
    ∀ (text : List Char) (st : DrawState),
      ((text.foldl (drawCharStep F recolor options actualY) st).calls).length =
        st.calls.length +
          (text.filter (fun c => (F.textures c).isSome)).length := by
  intro text
  induction text with
  | nil => intro st; simp
  | cons c t ih =>
    intro st
    simp only [List.foldl_cons, List.filter_cons]
    rw [ih, drawCharStep_calls_length]
    cases htex : F.textures c <;> simp [htex] <;> omega

/-- Helper: the character loop advances the cursor by the resolved width of
every character, whether or not its tile is present. -/
theorem drawFoldl_currentX (F : ImageFont) (recolor : RecolorFn)
    (options : ImageFontRenderingOptions) (actualY : JSNum) :
    ∀ (text : List Char) (st : DrawState),
      (text.foldl (drawCharStep F recolor options actualY) st).currentX =
        st.currentX +
          (text.map
            (fun c => measureCharacterWidth F (some c) options)).sum := by
  intro text
  induction text with
  | nil => intro st; simp
  | cons c t ih =>
    intro st
    simp only [List.foldl_cons, List.map_cons, List.sum_cons]
    rw [ih, drawCharStep_currentX]
    ring

/-- C6: in `drawText`, a character whose glyph tile is absent from the atlas
still advances the cursor by its resolved width while emitting no draw call
(the loop step is total, so no error is raised); consequently the number of
emitted calls is the number of characters with a tile, and the final cursor
always advances by the full text width. -/
theorem C6_missing_glyph (F : ImageFont) (recolor : RecolorFn)
    (options : ImageFontRenderingOptions) :
    (∀ (actualY : JSNum) (st : DrawState) (character : Char),
      F.textures character = none →
      drawCharStep F recolor options actualY st character =
        { st with currentX :=
            st.currentX + measureCharacterWidth F (some character) options }) ∧
    ∀ (text : List Char) (x y : ℚ) (cache0 : List (String × Texture))
        (count0 : ℕ),
      (drawTextRun F recolor text x y options cache0 count0).calls.length =
        (text.filter (fun character => (F.textures character).isSome)).length ∧
      (drawTextRun F recolor text x y options cache0 count0).currentX =
        originX F text x options +
          (text.map (fun character =>
            measureCharacterWidth F (some character) options)).sum := by
  constructor
  · intro actualY st character hnone
    simp [drawCharStep, hnone]
  · intro text x y cache0 count0
    constructor
    · unfold drawTextRun
      rw [drawFoldl_calls_length]
      simp
    · unfold drawTextRun
      rw [drawFoldl_currentX]

/-- Witness for C6: drawing `ab` with the atlas font (only `a` has a tile)
emits one call and advances past both characters. -/
theorem C6_missing_glyph_witness :
    exFontAtlas.textures 'b' = none ∧
    drawCharStep exFontAtlas exRecolor {} (JSNum.num 0)
        { currentX := 3, colorCache := [], recolorCount := 0, calls := [] }
        'b' =
      { currentX :=
          3 + measureCharacterWidth exFontAtlas (some 'b') {}
        colorCache := []
        recolorCount := 0
        calls := [] } ∧
    (drawTextRun exFontAtlas exRecolor ['a', 'b'] 0 0 {} [] 0).calls.length =
      1 ∧
    (drawTextRun exFontAtlas exRecolor ['a', 'b'] 0 0 {} [] 0).currentX =
      20 := by
  have h := C6_missing_glyph exFontAtlas exRecolor {}
  refine ⟨rfl, h.1 (JSNum.num 0) _ 'b' rfl, ?_, ?_⟩
  · rw [(h.2 ['a', 'b'] 0 0 [] 0).1]
    decide
  · rw [(h.2 ['a', 'b'] 0 0 [] 0).2]
    norm_num +decide [originX, measureText, measureCharacterWidth,
      actualScale, exFontAtlas, exCfg]

/-- C7: for every text, anchor point and options, `drawText`'s horizontal
origin is `x`, `x - width/2` or `x - width` according to the `align`
option, and its vertical origin is `y`, `y - height/2` or `y - height`
according to the `baseLine` option (in the JS extended arithmetic of
`jsub`/`jhalf`, which also covers the empty string's `-Infinity` height),
where width and height are the measured size of the text with the same
options; for non-empty text the measured height is a finite number and the
vertical origin is the plain rational `y - height/2` resp. `y - height`. -/
theorem C7_alignment_origins (F : ImageFont) (text : List Char) (x y : ℚ)
    (options : ImageFontRenderingOptions) :
    ((options.align = none ∨ options.align = some Align.left) →
      originX F text x options = x) ∧
    (options.align = some Align.center →
      originX F text x options = x - (measureText F text options).1 / 2) ∧
    (options.align = some Align.right →
      originX F text x options = x - (measureText F text options).1) ∧
    ((options.baseLine = none ∨ options.baseLine = some BaseLine.top) →
      originY F text y options = JSNum.num y) ∧
    (options.baseLine = some BaseLine.middle →
      originY F text y options =
        jsub y (jhalf (measureText F text options).2)) ∧
    (options.baseLine = some BaseLine.bottom →
      originY F text y options = jsub y (measureText F text options).2) ∧
    (text ≠ [] →
      ∃ hq : ℚ, (measureText F text options).2 = JSNum.num hq ∧
        (options.baseLine = some BaseLine.middle →
          originY F text y options = JSNum.num (y - hq / 2)) ∧
        (options.baseLine = some BaseLine.bottom →
          originY F text y options = JSNum.num (y - hq))) := by
  refine ⟨?_, ?_, ?_, ?_, ?_, ?_, ?_⟩
  · rintro (ha | ha) <;> simp [originX, ha]
  · intro ha; simp [originX, ha]
  · intro ha; simp [originX, ha]
  · rintro (hb | hb) <;> simp [originY, hb]
  · intro hb; simp [originY, hb]
  · intro hb; simp [originY, hb]
  · intro h
    obtain ⟨hq, hheight, -, -⟩ := measureText_height_max F options text h
    refine ⟨hq, hheight, ?_, ?_⟩
    · intro hb; simp [originY, hb, hheight, jhalf, jsub]
    · intro hb; simp [originY, hb, hheight, jsub]

/-- Witness for C7: right-aligned, bottom-baselined text in the example
font starts a full measured box (20 wide, 12 high) up and left of the
anchor. -/
theorem C7_alignment_origins_witness :
    ({ align := some Align.right, baseLine := some BaseLine.bottom } :
      ImageFontRenderingOptions).align = some Align.right ∧
    originX exFont ['a', 'b'] 100
        { align := some Align.right, baseLine := some BaseLine.bottom } =
      100 - (measureText exFont ['a', 'b']
        { align := some Align.right, baseLine := some BaseLine.bottom }).1 ∧
    originX exFont ['a', 'b'] 100
        { align := some Align.right, baseLine := some BaseLine.bottom } =
      80 ∧
    ({ align := some Align.right, baseLine := some BaseLine.bottom } :
      ImageFontRenderingOptions).baseLine = some BaseLine.bottom ∧
    originY exFont ['a', 'b'] 50
        { align := some Align.right, baseLine := some BaseLine.bottom } =
      jsub 50 (measureText exFont ['a', 'b']
        { align := some Align.right, baseLine := some BaseLine.bottom }).2 ∧
    originY exFont ['a', 'b'] 50
        { align := some Align.right, baseLine := some BaseLine.bottom } =
      JSNum.num 38 := by
  refine ⟨rfl, ?_, ?_, rfl, ?_, ?_⟩
  · exact (C7_alignment_origins exFont ['a', 'b'] 100 50
      { align := some Align.right, baseLine := some BaseLine.bottom }).2.2.1
      rfl
  · norm_num +decide [originX, measureText, measureCharacterWidth,
      actualScale, exFont, exCfg]
  · exact (C7_alignment_origins exFont ['a', 'b'] 100 50
      { align := some Align.right,
        baseLine := some BaseLine.bottom }).2.2.2.2.2.1 rfl
  · norm_num +decide [originY, measureText, measureCharacterHeight,
      actualScale, exFont, exCfg, jmax, jsub]

/-- Helper: `Map.set` grows the cache by at most one entry. -/
theorem mapSet_length_le (m : List (String × Texture)) (k : String)
    (v : Texture) : (mapSet m k v).length ≤ m.length + 1 := by
  unfold mapSet
  split
  · simp
  · simp

/-- Helper: `Map.set` of an absent key appends the entry at the end. -/
theorem mapSet_of_lookup_none (m : List (String × Texture)) (k : String)
    (v : Texture) (h : List.lookup k m = none) :
    mapSet m k v = m ++ [(k, v)] := by
  unfold mapSet
  rw [h]
  simp

/-- Helper: deleting the oldest entry of a non-empty cache strictly shrinks
it. -/
theorem mapDeleteOldest_length_lt (e : String × Texture)
    (t : List (String × Texture)) :
    (mapDeleteOldest (e :: t)).length < (e :: t).length := by
  show ((e :: t).filter (fun p => p.1 != e.1)).length < t.length + 1
  rw [List.filter_cons_of_neg (by simp)]
  have := List.length_filter_le (fun p => p.1 != e.1) t
  omega

/-- Helper: when every later key differs from the oldest key, deleting the
oldest entry is exactly dropping the head. -/
theorem mapDeleteOldest_cons (e : String × Texture)
    (t : List (String × Texture)) (h : ∀ p ∈ t, p.1 ≠ e.1) :
    mapDeleteOldest (e :: t) = t := by
  show (e :: t).filter (fun p => p.1 != e.1) = t
  rw [List.filter_cons_of_neg (by simp)]
  exact List.filter_eq_self.mpr (fun p hp => by simpa using h p hp)

/-- Helper: a key absent from a cache stays absent after a filter. -/
theorem lookup_filter_none (k : String) (f : String × Texture → Bool) :
    ∀ m : List (String × Texture), List.lookup k m = none →
      List.lookup k (m.filter f) = none := by
  intro m
  induction m with
  | nil => intro _; rfl
  | cons e t ih =>
    intro h
    have hke : (k == e.1) = false := by
      by_contra hc
      have : (k == e.1) = true := by
        cases hkk : k == e.1
        · exact absurd hkk hc
        · rfl
      simp [List.lookup, this] at h
    have ht : List.lookup k t = none := by
      simpa [List.lookup, hke] using h
    rw [List.filter_cons]
    split
    · simp [List.lookup, hke, ih ht]
    · exact ih ht

/-- Helper: a key absent from a cache stays absent after deleting the
oldest entry. -/
theorem lookup_mapDeleteOldest_none (k : String)
    (m : List (String × Texture)) (h : List.lookup k m = none) :
    List.lookup k (mapDeleteOldest m) = none := by
  unfold mapDeleteOldest
  cases m with
  | nil => exact h
  | cons e t => exact lookup_filter_none k _ (e :: t) h

/-- Helper: looking up a key right after appending it. -/
theorem lookup_append_self (k : String) (v : Texture) :
    ∀ m : List (String × Texture), List.lookup k m = none →
      List.lookup k (m ++ [(k, v)]) = some v := by
  intro m
  induction m with
  | nil => intro _; simp [List.lookup]
  | cons e t ih =>
    intro h
    have hke : (k == e.1) = false := by
      by_contra hc
      have : (k == e.1) = true := by
        cases hkk : k == e.1
        · exact absurd hkk hc
        · rfl
      simp [List.lookup, this] at h
    have ht : List.lookup k t = none := by
      simpa [List.lookup, hke] using h
    simpa [List.lookup, hke] using ih ht

/-- Helper: a key differing from every key in the cache is not found. -/
theorem lookup_eq_none_of_forall {β : Type} (k : String)
    (l : List (String × β)) (h : ∀ p ∈ l, p.1 ≠ k) :
    List.lookup k l = none := by
  induction l with
  | nil => rfl
  | cons e t ih =>
    have hk : (k == e.1) = false := by
      simp only [beq_eq_false_iff_ne]
      exact fun hkk => h e (by simp) hkk.symm
    obtain ⟨ek, ev⟩ := e
    simp only [List.lookup, hk]
    exact ih (fun p hp => h p (by simp [hp]))

/-- Helper: a run of `x`s is never a string that starts with `q`. -/
theorem replicate_x_ne (s : String) (hs : s.data.head? = some 'q') (n : ℕ) :
    String.mk (List.replicate (n + 1) 'x') ≠ s := by
  intro heq
  have hdata : List.replicate (n + 1) 'x' = s.data := congrArg String.data heq
  have hh : (List.replicate (n + 1) 'x').head? = some 'q' := by rw [hdata, hs]
  simp only [List.replicate_succ, List.head?_cons, Option.some.injEq] at hh
  exact absurd hh (by decide)

/-- Helper: the full example cache has exactly the maximum number of
entries. -/
theorem bigCache_length : bigCache.length = MAX_COLOR_CACHE_SIZE := by
  simp [bigCache, bigTail, bigHead, MAX_COLOR_CACHE_SIZE]

/-- Helper: every later key of the full example cache differs from its
oldest key. -/
theorem bigTail_keys_ne : ∀ p ∈ bigTail, p.1 ≠ bigHead.1 := by
  intro p hp
  simp only [bigTail, List.mem_map, List.mem_range] at hp
  obtain ⟨n, hn, rfl⟩ := hp
  show String.mk (List.replicate (n + 2) 'x') ≠
    String.mk (List.replicate 1 'x')
  intro hs
  have h2 : List.replicate (n + 2) 'x' = List.replicate 1 'x' :=
    congrArg String.data hs
  have h3 := congrArg List.length h2
  simp at h3

/-- Helper: the cache key requested in the eviction witness is absent from
the full example cache. -/
theorem bigCache_lookup_none :
    List.lookup
      (getCacheKey 'q' "blue"
        (getColoringMode { color := some "blue" })) bigCache = none := by
  apply lookup_eq_none_of_forall
  have hq : (getCacheKey 'q' "blue"
      (getColoringMode { color := some "blue" })).data.head? = some 'q' := by
    decide
  intro p hp
  rcases List.mem_cons.mp hp with h | h
  · subst h
    exact replicate_x_ne _ hq 0
  · simp only [bigTail, List.mem_map, List.mem_range] at h
    obtain ⟨n, hn, rfl⟩ := h
    exact replicate_x_ne _ hq (n + 1)

/-- C8: the color cache never exceeds `MAX_COLOR_CACHE_SIZE` entries; a
cached key is reused without recomputation or cache change; inserting a new
key into a cache at capacity evicts exactly the oldest (first-inserted)
entry and appends the new one; and a missing (e.g. previously evicted) key
is recomputed — the call counter increments — and reinserted. -/
theorem C8_color_cache (recolor : RecolorFn) (texture : Texture)
    (character : Char) (options : ImageFontRenderingOptions)
    (cache : List (String × Texture)) (count : ℕ) :
    (cache.length ≤ MAX_COLOR_CACHE_SIZE →
      (resolveColoredTexture recolor texture character options cache
        count).2.1.length ≤ MAX_COLOR_CACHE_SIZE) ∧
    (∀ (color : String) (t : Texture), options.color = some color →
      color ≠ "" →
      List.lookup (getCacheKey character color (getColoringMode options))
        cache = some t →
      resolveColoredTexture recolor texture character options cache count =
        (t, cache, count)) ∧
    (∀ (color : String) (e0 : String × Texture)
        (t : List (String × Texture)), options.color = some color →
      color ≠ "" →
      cache = e0 :: t →
      (∀ p ∈ t, p.1 ≠ e0.1) →
      List.lookup (getCacheKey character color (getColoringMode options))
        cache = none →
      MAX_COLOR_CACHE_SIZE ≤ cache.length →
      resolveColoredTexture recolor texture character options cache count =
        (recolor texture color (getColoringMode options)
          options.coloringFunction,
         t ++ [(getCacheKey character color (getColoringMode options),
           recolor texture color (getColoringMode options)
             options.coloringFunction)],
         count + 1)) ∧
    (∀ color : String, options.color = some color → color ≠ "" →
      List.lookup (getCacheKey character color (getColoringMode options))
        cache = none →
      (resolveColoredTexture recolor texture character options cache
        count).2.2 = count + 1 ∧
      List.lookup (getCacheKey character color (getColoringMode options))
        (resolveColoredTexture recolor texture character options cache
          count).2.1 =
        some (recolor texture color (getColoringMode options)
          options.coloringFunction)) := by
  have hmiss : ∀ color : String, options.color = some color → color ≠ "" →
      List.lookup (getCacheKey character color (getColoringMode options))
        cache = none →
      resolveColoredTexture recolor texture character options cache count =
        (recolor texture color (getColoringMode options)
          options.coloringFunction,
         mapSet
           (if MAX_COLOR_CACHE_SIZE ≤ cache.length then mapDeleteOldest cache
            else cache)
           (getCacheKey character color (getColoringMode options))
           (recolor texture color (getColoringMode options)
             options.coloringFunction),
         count + 1) := by
    intro color h1 h2 h3
    simp [resolveColoredTexture, h1, h2, h3]
  refine ⟨?_, ?_, ?_, ?_⟩
  · intro hlen
    rcases hc : options.color with _ | color
    · simpa [resolveColoredTexture, hc] using hlen
    · by_cases hc2 : color = ""
      · simpa [resolveColoredTexture, hc, hc2] using hlen
      · rcases hl : List.lookup
            (getCacheKey character color (getColoringMode options)) cache
            with _ | t
        · rw [hmiss color hc hc2 hl]
          refine le_trans (mapSet_length_le _ _ _) ?_
          by_cases hcap : MAX_COLOR_CACHE_SIZE ≤ cache.length
          · rw [if_pos hcap]
            cases cache with
            | nil => simp [MAX_COLOR_CACHE_SIZE] at hcap
            | cons e t =>
              have := mapDeleteOldest_length_lt e t
              omega
          · rw [if_neg hcap]
            omega
        · simpa [resolveColoredTexture, hc, hc2, hl] using hlen
  · intro color t h1 h2 h3
    simp [resolveColoredTexture, h1, h2, h3]
  · intro color e0 t h1 h2 hcons hdist h3 hcap
    have htl : List.lookup
        (getCacheKey character color (getColoringMode options)) t = none := by
      obtain ⟨ek, ev⟩ := e0
      rw [hcons] at h3
      cases hke : (getCacheKey character color (getColoringMode options)) ==
          ek with
      | true => simp [List.lookup, hke] at h3
      | false => simpa [List.lookup, hke] using h3
    rw [hmiss color h1 h2 h3, if_pos hcap, hcons,
      mapDeleteOldest_cons e0 t hdist, mapSet_of_lookup_none t _ _ htl]
  · intro color h1 h2 h3
    rw [hmiss color h1 h2 h3]
    have h4 : List.lookup
        (getCacheKey character color (getColoringMode options))
        (if MAX_COLOR_CACHE_SIZE ≤ cache.length then mapDeleteOldest cache
         else cache) = none := by
      by_cases hcap : MAX_COLOR_CACHE_SIZE ≤ cache.length
      · rw [if_pos hcap]
        exact lookup_mapDeleteOldest_none _ _ h3
      · rw [if_neg hcap]
        exact h3
    rw [mapSet_of_lookup_none _ _ _ h4]
    exact ⟨rfl, lookup_append_self _ _ _ h4⟩

/-- Witness for C8: a cache hit reuses the entry; inserting a new key into
the full `MAX_COLOR_CACHE_SIZE`-entry cache evicts exactly its oldest entry
and appends the new one with one recoloring call; a missing key is
recomputed and found in the cache afterwards. -/
theorem C8_color_cache_witness :
    (({ color := some "red" } : ImageFontRenderingOptions).color =
      some "red" ∧
     ("red" : String) ≠ "" ∧
     List.lookup (getCacheKey 'a' "red"
        (getColoringMode { color := some "red" }))
        [(getCacheKey 'a' "red" (getColoringMode { color := some "red" }),
          (⟨5, 6, 3⟩ : Texture))] = some ⟨5, 6, 3⟩ ∧
     resolveColoredTexture exRecolor ⟨8, 9, 0⟩ 'a' { color := some "red" }
        [(getCacheKey 'a' "red" (getColoringMode { color := some "red" }),
          (⟨5, 6, 3⟩ : Texture))] 4 =
       (⟨5, 6, 3⟩,
        [(getCacheKey 'a' "red" (getColoringMode { color := some "red" }),
          (⟨5, 6, 3⟩ : Texture))], 4)) ∧
    (bigCache = bigHead :: bigTail ∧
     MAX_COLOR_CACHE_SIZE ≤ bigCache.length ∧
     resolveColoredTexture exRecolor ⟨8, 9, 0⟩ 'q' { color := some "blue" }
        bigCache 0 =
       (exRecolor ⟨8, 9, 0⟩ "blue" (getColoringMode { color := some "blue" })
          none,
        bigTail ++ [(getCacheKey 'q' "blue"
          (getColoringMode { color := some "blue" }),
          exRecolor ⟨8, 9, 0⟩ "blue"
            (getColoringMode { color := some "blue" }) none)],
        1)) ∧
    (List.lookup (getCacheKey 'q' "blue"
        (getColoringMode { color := some "blue" }))
        ([] : List (String × Texture)) = none ∧
     (resolveColoredTexture exRecolor ⟨8, 9, 0⟩ 'q' { color := some "blue" }
        [] 0).2.2 = 0 + 1 ∧
     List.lookup (getCacheKey 'q' "blue"
        (getColoringMode { color := some "blue" }))
        (resolveColoredTexture exRecolor ⟨8, 9, 0⟩ 'q'
          { color := some "blue" } [] 0).2.1 =
       some (exRecolor ⟨8, 9, 0⟩ "blue"
         (getColoringMode { color := some "blue" }) none)) := by
  refine ⟨⟨rfl, by decide, by decide, ?_⟩, ⟨rfl, ?_, ?_⟩, ⟨rfl, ?_, ?_⟩⟩
  · exact (C8_color_cache exRecolor ⟨8, 9, 0⟩ 'a' { color := some "red" }
      [(getCacheKey 'a' "red" (getColoringMode { color := some "red" }),
        (⟨5, 6, 3⟩ : Texture))] 4).2.1 "red" ⟨5, 6, 3⟩ rfl (by decide)
      (by decide)
  · rw [bigCache_length]
  · exact (C8_color_cache exRecolor ⟨8, 9, 0⟩ 'q' { color := some "blue" }
      bigCache 0).2.2.1 "blue" bigHead bigTail rfl (by decide) rfl
      bigTail_keys_ne bigCache_lookup_none (le_of_eq bigCache_length.symm)
  · exact ((C8_color_cache exRecolor ⟨8, 9, 0⟩ 'q' { color := some "blue" }
      [] 0).2.2.2 "blue" rfl (by decide) rfl).1
  · exact ((C8_color_cache exRecolor ⟨8, 9, 0⟩ 'q' { color := some "blue" }
      [] 0).2.2.2 "blue" rfl (by decide) rfl).2

/-- Helper: with a falsy color option the coloring block is the identity on
the cache and counter. -/
theorem resolveColoredTexture_no_color (recolor : RecolorFn)
    (texture : Texture) (character : Char)
    (options : ImageFontRenderingOptions)
    (cache : List (String × Texture)) (count : ℕ)
    (h : options.color = none ∨ options.color = some "") :
    resolveColoredTexture recolor texture character options cache count =
      (texture, cache, count) := by
  rcases h with h | h <;> simp [resolveColoredTexture, h]

/-- Helper: with a falsy color option the character loop never touches the
cache or the recoloring counter. -/
theorem drawFoldl_cache_const (F : ImageFont) (recolor : RecolorFn)
    (options : ImageFontRenderingOptions) (actualY : JSNum)
    (h : options.color = none ∨ options.color = some "") :
    ∀ (text : List Char) (st : DrawState),
      (text.foldl (drawCharStep F recolor options actualY) st).colorCache =
        st.colorCache ∧
      (text.foldl (drawCharStep F recolor options actualY) st).recolorCount =
        st.recolorCount := by
  intro text
  induction text with
  | nil => intro st; exact ⟨rfl, rfl⟩
  | cons c t ih =>
    intro st
    simp only [List.foldl_cons]
    have hstep : (drawCharStep F recolor options actualY st c).colorCache =
        st.colorCache ∧
        (drawCharStep F recolor options actualY st c).recolorCount =
          st.recolorCount := by
      cases htex : F.textures c with
      | none => simp [drawCharStep, htex]
      | some tex =>
        simp only [drawCharStep, htex]
        rw [resolveColoredTexture_no_color recolor tex c options
          st.colorCache st.recolorCount h]
        exact ⟨rfl, rfl⟩
    exact ⟨(ih _).1.trans hstep.1, (ih _).2.trans hstep.2⟩

/-- C9: `measureText` leaves the instance state untouched; `drawText` never
changes the atlas or the configuration (the color cache is the only mutable
state), and with no (truthy) color option it changes nothing at all. -/
theorem C9_state_effects (σ : ImageFontState) (recolor : RecolorFn)
    (text : List Char) (x y : ℚ) (options : ImageFontRenderingOptions) :
    (measureTextM σ text options).2 = σ ∧
    (drawTextM σ recolor text x y options).2.textures = σ.textures ∧
    (drawTextM σ recolor text x y options).2.config = σ.config ∧
    ((options.color = none ∨ options.color = some "") →
      (drawTextM σ recolor text x y options).2 = σ) := by
  refine ⟨rfl, rfl, rfl, ?_⟩
  intro h
  show { σ with colorCache :=
    (drawTextRun ⟨σ.textures, σ.config⟩ recolor text x y options
      σ.colorCache 0).colorCache } = σ
  unfold drawTextRun
  rw [(drawFoldl_cache_const ⟨σ.textures, σ.config⟩ recolor options
    (originY ⟨σ.textures, σ.config⟩ text y options) h text _).1]

/-- Witness for C9: drawing with no color option leaves a concrete instance
state (including a non-empty cache) exactly as it was. -/
theorem C9_state_effects_witness :
    (measureTextM
        ⟨exFontAtlas.textures, exFontAtlas.config, [("k", ⟨2, 2, 7⟩)]⟩
        ['a', 'b'] {}).2 =
      ⟨exFontAtlas.textures, exFontAtlas.config, [("k", ⟨2, 2, 7⟩)]⟩ ∧
    (({} : ImageFontRenderingOptions).color = none ∨
      ({} : ImageFontRenderingOptions).color = some "") ∧
    (drawTextM ⟨exFontAtlas.textures, exFontAtlas.config, [("k", ⟨2, 2, 7⟩)]⟩
        exRecolor ['a', 'b'] 0 0 {}).2 =
      ⟨exFontAtlas.textures, exFontAtlas.config, [("k", ⟨2, 2, 7⟩)]⟩ :=
  ⟨(C9_state_effects
      ⟨exFontAtlas.textures, exFontAtlas.config, [("k", ⟨2, 2, 7⟩)]⟩
      exRecolor ['a', 'b'] 0 0 {}).1,
   Or.inl rfl,
   (C9_state_effects
      ⟨exFontAtlas.textures, exFontAtlas.config, [("k", ⟨2, 2, 7⟩)]⟩
      exRecolor ['a', 'b'] 0 0 {}).2.2.2 (Or.inl rfl)⟩
